import Mathlib

/-!
Shallow embedding of the Nordic analytics pipeline (src/config.py,
src/etl.py, src/features.py).

Modelling conventions:
- a polars DataFrame is a list of records, in row order; a nullable column
  is an Option-valued field;
- monetary floats are rationals (exact real semantics of the arithmetic);
- a datetime is an integer epoch-second count, a date is an integer epoch-day
  count; string-to-date parsing at the I/O boundary (which is fatal on
  malformed input) is outside the claims treated here, so raw records carry
  already-parsed instants;
- polars aggregation semantics (nulls are skipped by sum, mean, std, min,
  max; the sum of no values is 0; the sample standard deviation of fewer
  than two values is null) are embedded in the aggregate helpers below;
- the standard-deviation fields store the sample variance, i.e. the square
  of the standard deviation the source computes: no claim depends on the
  numeric value of a standard deviation, only on its definedness and on
  which samples enter it, and the only comparison against a standard
  deviation in the source (the z-score churn flag) is embedded by the
  equivalent squared comparison, avoiding irrational square roots.
-/

namespace NordicPipeline

/-- Floor of a rational, computable in the kernel:
the floor of num/den (den positive) is the floored integer division. -/
def qfloor (x : ℚ) : ℤ := x.num.fdiv x.den

/-- Ceiling of a rational, computable in the kernel. -/
def qceil (x : ℚ) : ℤ := -qfloor (-x)

/-- Rounding of a nonnegative rational to the nearest integer, halves up,
matching the float rounding of nonnegative values in the source
(quantile index selection, 2-decimal rounding of positive amounts). -/
def qround (x : ℚ) : ℤ := qfloor (x + 1 / 2)

/-- The 2-decimal rounding applied by the source to monetary values
(polars Series.round(2) / Expr.round(2)). -/
def round2 (x : ℚ) : ℚ := (qround (x * 100) : ℚ) / 100

/-- Mean of a list of values, null on an empty list:
polars mean over the non-null values of a column. -/
def qMean (v : List ℚ) : Option ℚ :=
  if v.length = 0 then none else some (v.sum / (v.length : ℚ))

/-- Sample variance (the square of the sample standard deviation with
ddof = 1 computed by polars std), null when fewer than two values exist. -/
def qSampleVar (v : List ℚ) : Option ℚ :=
  if v.length < 2 then none
  else
    some (((v.map (fun x => (x - v.sum / (v.length : ℚ)) ^ 2)).sum) / ((v.length : ℚ) - 1))

/-- polars max over an integer column: null on an empty column. -/
def pIntMax : List ℤ → Option ℤ
  | [] => none
  | x :: xs =>
    some (match pIntMax xs with
          | none => x
          | some m => max x m)

/-- polars min over an integer column: null on an empty column. -/
def pIntMin : List ℤ → Option ℤ
  | [] => none
  | x :: xs =>
    some (match pIntMin xs with
          | none => x
          | some m => min x m)

/-- Keep the first record bearing each key, in row order, skipping keys in
`seen`: the semantics of polars unique(subset, keep = first). -/
def dedupByKey {α β : Type} [DecidableEq β] (key : α → β) : List β → List α → List α
  | _, [] => []
  | seen, x :: xs =>
    if key x ∈ seen then dedupByKey key seen xs
    else x :: dedupByKey key (key x :: seen) xs

/-- The calendar date (epoch days) of an epoch-second instant:
polars Datetime.dt.date, a floor division. -/
def dateOf (t : ℤ) : ℤ := qfloor ((t : ℚ) / 86400)

/-- Whole days of a nonnegative duration in seconds:
polars Duration.dt.total_days (truncation, which equals the floor on the
nonnegative durations produced by sorted timestamps). -/
def totalDays (d : ℤ) : ℤ := qfloor ((d : ℚ) / 86400)

/-! ## Configuration constants (src/config.py) -/

/-- config.VALID_COUNTRIES. -/
def VALID_COUNTRIES : List String := ["DK", "FI", "SE", "NO"]

/-- config.COUNTRY_CURRENCY_MAP. -/
def COUNTRY_CURRENCY_MAP : List (String × String) :=
  [("DK", "DKK"), ("SE", "SEK"), ("NO", "NOK"), ("FI", "EUR")]

/-- config.CONVERSION_RATES (rates to EUR). -/
def CONVERSION_RATES : List (String × ℚ) :=
  [("EUR", 1), ("DKK", 134 / 1000), ("SEK", 94 / 1000), ("NOK", 87 / 1000)]

/-- config.HIGH_VALUE_PERCENTILE. -/
def HIGH_VALUE_PERCENTILE : ℚ := 80 / 100

/-- config.CHURN_DAYS. -/
def CHURN_DAYS : ℤ := 50

/-- config.CHURN_Z_SCORE_THRESHOLD. -/
def CHURN_Z_SCORE_THRESHOLD : ℚ := 2

/-! ## Raw records and the cleaning stage (src/etl.py) -/

/-- A raw customer row as loaded by load_customers (all CSV columns are
nullable; the signup instant is carried already parsed, see the module
comment). -/
structure RawCustomer where
  customer_id : Option ℤ
  country : Option String
  signup_date : ℤ
  email : Option String
deriving DecidableEq

/-- A raw transaction row as loaded by load_transactions. -/
structure RawTxn where
  transaction_id : Option ℤ
  customer_id : Option ℤ
  amount : Option ℚ
  currency : Option String
  timestamp : ℤ
  category : Option String
deriving DecidableEq

/-- The with_columns step of clean_customers: uppercase country,
lowercase email (a null stays null: polars str functions map over nulls). -/
def normCustomer (r : RawCustomer) : RawCustomer :=
  { r with
    country := r.country.map String.toUpper
    email := r.email.map String.toLower }

/-- The filter step of clean_customers: non-null customer_id and
(uppercased) country in the valid set; is_in on a null country yields
null, which the filter drops. -/
def customerKept (r : RawCustomer) : Bool :=
  r.customer_id.isSome &&
    (match r.country with
     | some c => VALID_COUNTRIES.contains c
     | none => false)

/-- src/etl.py clean_customers: normalize, filter, deduplicate on
customer_id keeping the first occurrence, sort by customer_id ascending
(ids are non-null at that point, so the null-first placement of the
polars sort is immaterial). -/
def clean_customers (df : List RawCustomer) : List RawCustomer :=
  List.insertionSort (fun a b => a.customer_id.getD 0 ≤ b.customer_id.getD 0)
    (dedupByKey (fun r => r.customer_id) [] ((df.map normCustomer).filter customerKept))

/-- The with_columns step of clean_transactions: null or empty currency
becomes the sentinel NA, otherwise uppercase; null or empty category
becomes NA, otherwise lowercase. -/
def normTxn (r : RawTxn) : RawTxn :=
  { r with
    currency :=
      if r.currency = none ∨ r.currency = some "" then some "NA"
      else r.currency.map String.toUpper
    category :=
      if r.category = none ∨ r.category = some "" then some "NA"
      else r.category.map String.toLower }

/-- The filter step of clean_transactions: non-null transaction_id,
customer_id and amount, and amount strictly positive. -/
def txnKept (r : RawTxn) : Bool :=
  r.transaction_id.isSome && r.customer_id.isSome &&
    (match r.amount with
     | some a => decide (0 < a)
     | none => false)

/-- src/etl.py clean_transactions: normalize, filter, deduplicate on
transaction_id keeping the first occurrence, sort by transaction_id. -/
def clean_transactions (df : List RawTxn) : List RawTxn :=
  List.insertionSort (fun a b => a.transaction_id.getD 0 ≤ b.transaction_id.getD 0)
    (dedupByKey (fun r => r.transaction_id) [] ((df.map normTxn).filter txnKept))

/-! ## Cleaned records and the currency stage (src/etl.py) -/

/-- A cleaned customer row (the invariants established by clean_customers
let the key columns be plain-valued). -/
structure Customer where
  customer_id : ℤ
  country : String
  signup_date : ℤ
  email : String
deriving DecidableEq

/-- A cleaned transaction row. -/
structure Txn where
  transaction_id : ℤ
  customer_id : ℤ
  amount : ℚ
  currency : String
  timestamp : ℤ
  category : String
deriving DecidableEq

/-- A default transaction, used only as the out-of-range default of
list indexing in theorem statements. -/
def txnD : Txn :=
  { transaction_id := 0, customer_id := 0, amount := 0, currency := "",
    timestamp := 0, category := "" }

/-- src/etl.py infer_currency_from_country: left join with the customer
table on customer_id (unique in a cleaned customer table, hence a first
match lookup), then replace an NA currency by the country mapping with
default NA (replace_strict maps an unmatched or null country to the
default), leaving non-NA currencies untouched, and drop the country
column again. -/
def newCurrency (customers : List Customer) (t : Txn) : String :=
  match customers.find? (fun c => c.customer_id == t.customer_id) with
  | some c => (COUNTRY_CURRENCY_MAP.lookup c.country).getD "NA"
  | none => "NA"

def inferRow (customers : List Customer) (t : Txn) : Txn :=
  if t.currency = "NA" then { t with currency := newCurrency customers t } else t

/-- The whole inference pass is the row transformation applied to every
transaction row (the left join neither drops nor duplicates rows when
the right key is unique). -/
def infer_currency_from_country (transactions : List Txn) (customers : List Customer) :
    List Txn :=
  transactions.map (inferRow customers)

/-- src/etl.py remove_orphan_transactions: keep the transactions whose
customer_id occurs in the customer table (the unique() the source applies
before is_in does not change membership). -/
def remove_orphan_transactions (transactions : List Txn) (customers : List Customer) :
    List Txn :=
  transactions.filter (fun t =>
    decide (t.customer_id ∈ customers.map (fun c => c.customer_id)))

/-- A cleaned transaction row carrying the converted amount; a currency
with no conversion-rate entry leaves amount_in_eur null. -/
structure TxnE extends Txn where
  amount_in_eur : Option ℚ
deriving DecidableEq

/-- A default converted transaction for list indexing in statements. -/
def txnED : TxnE := { toTxn := txnD, amount_in_eur := none }

/-- src/etl.py add_amount_in_eur: amount times the rate found by
replace_strict over CONVERSION_RATES with default null, rounded to two
decimals (a null propagates through the product and the rounding). -/
def add_amount_in_eur (transactions : List Txn) : List TxnE :=
  transactions.map (fun t =>
    { toTxn := t
      amount_in_eur :=
        (CONVERSION_RATES.lookup t.currency).map (fun r => round2 (t.amount * r)) })

/-! ## The RFM aggregator (src/features.py) -/

/-- One row of the customer feature table produced by
compute_rfm_features.  The preferred_category / preferred_currency
columns of the source are not modelled: they are produced by polars
mode().first(), whose choice among tied modes is unspecified (see the
development notes on the categorical-preference claim). -/
structure FeatureRow where
  customer_id : ℤ
  total_spend : ℚ
  avg_transaction_amount : Option ℚ
  std_transaction_amount : Option ℚ
  min_transaction_amount : Option ℚ
  max_transaction_amount : Option ℚ
  transaction_count : ℕ
  last_transaction_date : ℤ
  first_transaction_date : ℤ
  days_since_last_transaction : ℤ
  customer_tenure_days : ℤ
  mean_interevent_days : Option ℚ
  std_interevent_days : Option ℚ
deriving DecidableEq

/-- A default feature row for list indexing in statements. -/
def featD : FeatureRow :=
  { customer_id := 0, total_spend := 0, avg_transaction_amount := none,
    std_transaction_amount := none, min_transaction_amount := none,
    max_transaction_amount := none, transaction_count := 0,
    last_transaction_date := 0, first_transaction_date := 0,
    days_since_last_transaction := 0, customer_tenure_days := 0,
    mean_interevent_days := none, std_interevent_days := none }

/-- The interevent day gaps of one customer group: sort the timestamps
ascending (the source sorts the whole table by customer_id then
timestamp, which sorts each group by timestamp) and take whole-day
differences of consecutive instants; the first transaction has no
predecessor and contributes no sample. -/
def intereventDays (ts : List ℤ) : List ℚ :=
  let s := List.insertionSort (fun a b => a ≤ b) ts
  List.zipWith (fun a b => ((totalDays (b - a) : ℤ) : ℚ)) s s.tail

/-- The aggregation of one customer group of compute_rfm_features
(groups handed out by group_by are nonempty; the defaults behind getD
are never reached from compute_rfm_features). -/
def rfmRow (ref : ℤ) (cid : ℤ) (g : List TxnE) : FeatureRow :=
  let v := (g.map (fun u => u.amount_in_eur)).filterMap id
  let ts := g.map (fun u => u.timestamp)
  let last := (pIntMax ts).getD 0
  let first := (pIntMin ts).getD 0
  let deltas := intereventDays ts
  { customer_id := cid
    total_spend := round2 v.sum
    avg_transaction_amount := (qMean v).map round2
    std_transaction_amount := qSampleVar v
    min_transaction_amount := v.min?
    max_transaction_amount := v.max?
    transaction_count := g.length
    last_transaction_date := last
    first_transaction_date := first
    days_since_last_transaction := ref - dateOf last
    customer_tenure_days := dateOf last - dateOf first
    mean_interevent_days := qMean deltas
    std_interevent_days := qSampleVar deltas }

/-- src/features.py compute_rfm_features: the reference date defaults to
the date of the maximum timestamp over all transactions (on an empty
table without an explicit reference date the source raises; the getD 0
default is never exercised by the claims, which assume a nonempty
table), then one aggregated row per distinct customer_id. -/
def compute_rfm_features (transactions : List TxnE) (reference_date : Option ℤ) :
    List FeatureRow :=
  let ref := reference_date.getD (dateOf ((pIntMax (transactions.map (fun u => u.timestamp))).getD 0))
  (dedupByKey (fun c => c) [] (transactions.map (fun u => u.customer_id))).map
    (fun c => rfmRow ref c (transactions.filter (fun u => u.customer_id == c)))

/-! ## The flag engine (src/features.py) -/

/-- A feature row extended with the business flags of
add_customer_flags.  is_high_value and is_churning_2 are nullable
boolean columns in polars: the comparison against a null quantile (empty
table) or a null interevent mean / std propagates null. -/
structure FlagRow extends FeatureRow where
  is_high_value : Option Bool
  is_churning : Bool
  is_churning_2 : Option Bool
  has_single_transaction : Bool
deriving DecidableEq

/-- polars Series.quantile with its default interpolation "nearest": on
the ascending sorted non-null values, the element at index
round(q * (n - 1)), half away from zero (the index is nonnegative, so
halves round up); null on an empty series. -/
def pQuantileNearest (q : ℚ) (xs : List ℚ) : Option ℚ :=
  let s := List.insertionSort (fun a b => a ≤ b) xs
  if s.length = 0 then none
  else s[(qround (q * ((s.length : ℚ) - 1))).toNat]?

/-- Follows the words of the spec, not the source (for comparison with
pQuantileNearest): the quantile by linear interpolation between the two
closest order statistics of the ascending sorted values. -/
def quantileLinearSpec (q : ℚ) (xs : List ℚ) : Option ℚ :=
  let s := List.insertionSort (fun a b => a ≤ b) xs
  if s.length = 0 then none
  else
    let h : ℚ := q * ((s.length : ℚ) - 1)
    let lo := (qfloor h).toNat
    let hi := (qceil h).toNat
    some (s.getD lo 0 + (h - (qfloor h : ℚ)) * (s.getD hi 0 - s.getD lo 0))

/-- src/features.py add_customer_flags: the high-value threshold is the
quantile of the total_spend column at high_value_percentile (polars
default interpolation), then per row:
- is_high_value:  total_spend >= threshold (null threshold propagates);
- is_churning:    days_since_last_transaction >= churn_days;
- is_churning_2:  days_since_last_transaction > mean + z * std of the
  interevent days, null when mean or std is null; with the variance w
  stored in place of the std s = sqrt w, the strict comparison
  d > m + z * s is embedded by its exact squared equivalent
  0 < d - m and z^2 * w < (d - m)^2 (z and w are nonnegative);
- has_single_transaction: transaction_count == 1. -/
def flagRow (high_value_threshold : Option ℚ) (churn_days : ℤ) (r : FeatureRow) :
    FlagRow :=
  -- the per-row body of the with_columns call of add_customer_flags
  { toFeatureRow := r
    is_high_value := high_value_threshold.map (fun th => decide (th ≤ r.total_spend))
    is_churning := decide (churn_days ≤ r.days_since_last_transaction)
    is_churning_2 :=
      match r.mean_interevent_days, r.std_interevent_days with
      | some m, some w =>
        some (decide (0 < (r.days_since_last_transaction : ℚ) - m ∧
              CHURN_Z_SCORE_THRESHOLD ^ 2 * w <
                ((r.days_since_last_transaction : ℚ) - m) ^ 2))
      | _, _ => none
    has_single_transaction := decide (r.transaction_count = 1) }

/-- add_customer_flags computes one global threshold, then maps the
row transformation over the feature table. -/
def add_customer_flags (features : List FeatureRow) (high_value_percentile : ℚ)
    (churn_days : ℤ) : List FlagRow :=
  features.map (flagRow
    (pQuantileNearest high_value_percentile (features.map (fun r => r.total_spend)))
    churn_days)

/-- A default flag row, used only as the out-of-range default of list
indexing in theorem statements. -/
def flagD : FlagRow :=
  { toFeatureRow := featD, is_high_value := none, is_churning := false,
    is_churning_2 := none, has_single_transaction := false }

/-- A feature row distinguished only by its total spend, for concrete
flag-engine inputs. -/
def featSpend (s : ℚ) : FeatureRow := { featD with total_spend := s }

/-! ## Helper lemmas -/

theorem qfloor_eq_floor (x : ℚ) : qfloor x = ⌊x⌋ := by
  rw [Rat.floor_def, qfloor, Int.fdiv_eq_ediv]
  exact_mod_cast Nat.zero_le x.den

theorem dateOf_mono {a b : ℤ} (h : a ≤ b) : dateOf a ≤ dateOf b := by
  unfold dateOf
  rw [qfloor_eq_floor, qfloor_eq_floor]
  apply Int.floor_mono
  gcongr

theorem mem_of_mem_dedupByKey {α β : Type} [DecidableEq β] (key : α → β) :
    ∀ (seen : List β) (l : List α) (a : α), a ∈ dedupByKey key seen l → a ∈ l := by
  intro seen l
  induction l generalizing seen with
  | nil => intro a h; simp [dedupByKey] at h
  | cons x xs ih =>
    intro a h
    by_cases hx : key x ∈ seen
    · simp only [dedupByKey, if_pos hx] at h
      exact List.mem_cons_of_mem x (ih seen a h)
    · simp only [dedupByKey, if_neg hx, List.mem_cons] at h
      rcases h with h | h
      · exact h ▸ List.mem_cons_self x xs
      · exact List.mem_cons_of_mem x (ih _ a h)

theorem key_notMem_seen_of_mem_dedupByKey {α β : Type} [DecidableEq β] (key : α → β) :
    ∀ (seen : List β) (l : List α) (a : α), a ∈ dedupByKey key seen l → key a ∉ seen := by
  intro seen l
  induction l generalizing seen with
  | nil => intro a h; simp [dedupByKey] at h
  | cons x xs ih =>
    intro a h
    by_cases hx : key x ∈ seen
    · simp only [dedupByKey, if_pos hx] at h
      exact ih seen a h
    · simp only [dedupByKey, if_neg hx, List.mem_cons] at h
      rcases h with h | h
      · exact h ▸ hx
      · intro hs
        exact ih _ a h (List.mem_cons_of_mem _ hs)

theorem nodup_keys_dedupByKey {α β : Type} [DecidableEq β] (key : α → β) :
    ∀ (seen : List β) (l : List α), ((dedupByKey key seen l).map key).Nodup := by
  intro seen l
  induction l generalizing seen with
  | nil => simp [dedupByKey]
  | cons x xs ih =>
    by_cases hx : key x ∈ seen
    · simpa only [dedupByKey, if_pos hx] using ih seen
    · simp only [dedupByKey, if_neg hx, List.map_cons, List.nodup_cons]
      refine ⟨?_, ih _⟩
      intro hmem
      rcases List.mem_map.mp hmem with ⟨a, ha, hkey⟩
      exact key_notMem_seen_of_mem_dedupByKey key _ _ a ha
        (hkey ▸ List.mem_cons_self _ _)

theorem pIntMax_eq_none {l : List ℤ} : pIntMax l = none ↔ l = [] := by
  cases l <;> simp [pIntMax]

theorem pIntMax_isSome {l : List ℤ} (h : l ≠ []) : ∃ m, pIntMax l = some m := by
  cases l with
  | nil => exact absurd rfl h
  | cons x xs => exact ⟨_, rfl⟩

theorem le_pIntMax : ∀ (l : List ℤ) (m : ℤ), pIntMax l = some m → ∀ a ∈ l, a ≤ m := by
  intro l
  induction l with
  | nil => intro m h; simp [pIntMax] at h
  | cons x xs ih =>
    intro m h a ha
    rw [List.mem_cons] at ha
    cases hx : pIntMax xs with
    | none =>
      have hxs : xs = [] := pIntMax_eq_none.mp hx
      have hm : m = x := by
        simp [pIntMax, hx] at h
        omega
      subst hxs hm
      rcases ha with rfl | ha
      · exact le_refl a
      · simp at ha
    | some mx =>
      have hm : m = max x mx := by
        simp [pIntMax, hx] at h
        omega
      subst hm
      rcases ha with rfl | ha
      · exact le_max_left _ _
      · exact le_trans (ih mx hx a ha) (le_max_right _ _)

theorem pIntMax_mem : ∀ (l : List ℤ) (m : ℤ), pIntMax l = some m → m ∈ l := by
  intro l
  induction l with
  | nil => intro m h; simp [pIntMax] at h
  | cons x xs ih =>
    intro m h
    cases hx : pIntMax xs with
    | none =>
      have hm : m = x := by
        simp [pIntMax, hx] at h
        omega
      exact hm ▸ List.mem_cons_self _ _
    | some mx =>
      have hm : m = max x mx := by
        simp [pIntMax, hx] at h
        omega
      rcases max_choice x mx with hc | hc
      · rw [hm, hc]; exact List.mem_cons_self _ _
      · rw [hm, hc]; exact List.mem_cons_of_mem x (ih mx hx)

theorem getD_map_of_lt {α β : Type} (f : α → β) (l : List α) (i : ℕ) (dA : α) (dB : β)
    (h : i < l.length) : (l.map f).getD i dB = f (l.getD i dA) := by
  rw [List.getD_eq_getElem _ _ (by simpa using h), List.getD_eq_getElem _ _ h]
  simp

/-! ## C8: the referential integrity filter -/

/-- C8: remove_orphan_transactions keeps exactly the input transactions
whose customer_id occurs in the customer table, each retained row being
an input row itself, field for field (the output is a sublist of the
input); in particular the output customer ids form a subset of the
customer table ids. -/
theorem c8_orphan_filter (transactions : List Txn) (customers : List Customer) :
    List.Sublist (remove_orphan_transactions transactions customers) transactions ∧
    (∀ t : Txn, t ∈ remove_orphan_transactions transactions customers ↔
      (t ∈ transactions ∧ t.customer_id ∈ customers.map (fun c => c.customer_id))) := by
  constructor
  · exact List.filter_sublist _
  · intro t
    simp [remove_orphan_transactions, List.mem_filter]

/-! ## C6 and C7: the currency inference pass -/

theorem inferRow_customer_id (customers : List Customer) (t : Txn) :
    (inferRow customers t).customer_id = t.customer_id := by
  unfold inferRow
  split <;> rfl

theorem inferRow_idem (customers : List Customer) (t : Txn) :
    inferRow customers (inferRow customers t) = inferRow customers t := by
  by_cases hc : t.currency = "NA"
  · have hinner : inferRow customers t = { t with currency := newCurrency customers t } := by
      rw [inferRow, if_pos hc]
    rw [hinner]
    have hcur : ({ t with currency := newCurrency customers t } : Txn).currency
        = newCurrency customers t := rfl
    by_cases hn : newCurrency customers t = "NA"
    · rw [inferRow, hcur, if_pos hn]
      rfl
    · rw [inferRow, hcur, if_neg hn]
  · have hinner : inferRow customers t = t := by
      rw [inferRow, if_neg hc]
    rw [hinner, inferRow, if_neg hc]

/-- C6: applying the currency inference twice to a cleaned transaction
table (cleaned customer ids are unique) gives the same table as
applying it once; rows already bearing a real currency are untouched by
either pass. -/
theorem c6_inference_idempotent (transactions : List Txn) (customers : List Customer)
    (h : (customers.map (fun c => c.customer_id)).Nodup) :
    infer_currency_from_country (infer_currency_from_country transactions customers) customers
      = infer_currency_from_country transactions customers := by
  unfold infer_currency_from_country
  rw [List.map_map]
  apply List.map_congr_left
  intro t _
  exact inferRow_idem customers t

/-- C6 witness. -/
theorem c6_inference_idempotent_witness :
    infer_currency_from_country
        (infer_currency_from_country
          [{ transaction_id := 1, customer_id := 7, amount := 5, currency := "NA",
             timestamp := 0, category := "food" }]
          [{ customer_id := 7, country := "DK", signup_date := 0, email := "a@b.c" }])
        [{ customer_id := 7, country := "DK", signup_date := 0, email := "a@b.c" }]
      = infer_currency_from_country
          [{ transaction_id := 1, customer_id := 7, amount := 5, currency := "NA",
             timestamp := 0, category := "food" }]
          [{ customer_id := 7, country := "DK", signup_date := 0, email := "a@b.c" }] :=
  c6_inference_idempotent _ _ (by decide)

theorem inferRow_fields (customers : List Customer) (t : Txn) :
    (inferRow customers t).transaction_id = t.transaction_id ∧
    (inferRow customers t).customer_id = t.customer_id ∧
    (inferRow customers t).amount = t.amount ∧
    (inferRow customers t).timestamp = t.timestamp ∧
    (inferRow customers t).category = t.category := by
  unfold inferRow
  split <;> exact ⟨rfl, rfl, rfl, rfl, rfl⟩

theorem inferRow_currency_change (customers : List Customer) (t : Txn)
    (h : (inferRow customers t).currency ≠ t.currency) :
    t.currency = "NA" ∧ ∃ c ∈ customers, c.customer_id = t.customer_id ∧
      COUNTRY_CURRENCY_MAP.lookup c.country = some (inferRow customers t).currency := by
  by_cases hc : t.currency = "NA"
  · refine ⟨hc, ?_⟩
    rw [inferRow, if_pos hc] at h ⊢
    have hcur : ({ t with currency := newCurrency customers t } : Txn).currency
        = newCurrency customers t := rfl
    rw [hcur] at h ⊢
    rw [newCurrency] at h ⊢
    cases hf : customers.find? (fun c => c.customer_id == t.customer_id) with
    | none => simp only [hf, hc] at h; exact absurd rfl h
    | some c =>
      cases hl : COUNTRY_CURRENCY_MAP.lookup c.country with
      | none => simp only [hf, hl, Option.getD_none, hc] at h; exact absurd rfl h
      | some cur =>
        refine ⟨c, List.mem_of_find?_eq_some hf, ?_, ?_⟩
        · have := List.find?_some hf
          simpa using this
        · simp only [hf, hl, Option.getD_some]
  · rw [inferRow, if_neg hc] at h
    exact absurd rfl h

theorem inferRow_unmapped (customers : List Customer) (t : Txn)
    (hc : t.currency = "NA")
    (h : ∀ c ∈ customers, c.customer_id = t.customer_id →
      COUNTRY_CURRENCY_MAP.lookup c.country = none) :
    (inferRow customers t).currency = "NA" := by
  rw [inferRow, if_pos hc]
  have hcur : ({ t with currency := newCurrency customers t } : Txn).currency
      = newCurrency customers t := rfl
  rw [hcur, newCurrency]
  cases hf : customers.find? (fun c => c.customer_id == t.customer_id) with
  | none => rfl
  | some c =>
    have hcid : c.customer_id = t.customer_id := by
      have := List.find?_some hf
      simpa using this
    simp only [h c (List.mem_of_find?_eq_some hf) hcid, Option.getD_none]

/-- C7: on a transaction table and a customer table with unique
customer ids, the inference pass preserves the row count and, row by
row, every field except possibly currency; a row's currency changes
only when it was the sentinel NA and a customer with a mapped country
matches it, and an NA row whose customer is missing or has an unmapped
country keeps the sentinel. -/
theorem c7_inference_frame (transactions : List Txn) (customers : List Customer)
    (h : (customers.map (fun c => c.customer_id)).Nodup) (i : ℕ)
    (hi : i < transactions.length) :
    (infer_currency_from_country transactions customers).length = transactions.length ∧
    ((infer_currency_from_country transactions customers).getD i txnD).transaction_id
        = (transactions.getD i txnD).transaction_id ∧
    ((infer_currency_from_country transactions customers).getD i txnD).customer_id
        = (transactions.getD i txnD).customer_id ∧
    ((infer_currency_from_country transactions customers).getD i txnD).amount
        = (transactions.getD i txnD).amount ∧
    ((infer_currency_from_country transactions customers).getD i txnD).timestamp
        = (transactions.getD i txnD).timestamp ∧
    ((infer_currency_from_country transactions customers).getD i txnD).category
        = (transactions.getD i txnD).category ∧
    (((infer_currency_from_country transactions customers).getD i txnD).currency
          ≠ (transactions.getD i txnD).currency →
      (transactions.getD i txnD).currency = "NA" ∧
      ∃ c ∈ customers, c.customer_id = (transactions.getD i txnD).customer_id ∧
        COUNTRY_CURRENCY_MAP.lookup c.country
          = some ((infer_currency_from_country transactions customers).getD i txnD).currency) ∧
    ((transactions.getD i txnD).currency = "NA" →
      (∀ c ∈ customers, c.customer_id = (transactions.getD i txnD).customer_id →
        COUNTRY_CURRENCY_MAP.lookup c.country = none) →
      ((infer_currency_from_country transactions customers).getD i txnD).currency = "NA") := by
  have hout : (infer_currency_from_country transactions customers).getD i txnD
      = inferRow customers (transactions.getD i txnD) :=
    getD_map_of_lt (inferRow customers) transactions i txnD txnD hi
  rw [hout]
  obtain ⟨h1, h2, h3, h4, h5⟩ := inferRow_fields customers (transactions.getD i txnD)
  exact ⟨by simp [infer_currency_from_country], h1, h2, h3, h4, h5,
    inferRow_currency_change customers _,
    fun hc hm => inferRow_unmapped customers _ hc hm⟩

/-- C7 witness. -/
theorem c7_inference_frame_witness :
    (infer_currency_from_country
        [{ transaction_id := 1, customer_id := 7, amount := 5, currency := "NA",
           timestamp := 0, category := "food" }]
        [{ customer_id := 7, country := "SE", signup_date := 0, email := "a@b.c" }]).length
      = [{ transaction_id := 1, customer_id := 7, amount := 5, currency := "NA",
           timestamp := 0, category := "food" : Txn }].length :=
  (c7_inference_frame _ _ (by decide) 0 (by decide)).1

/-! ## C9: invariants of the cleaning stage -/

theorem normTxn_currency_ne_none (r : RawTxn) : (normTxn r).currency ≠ none := by
  show (if r.currency = none ∨ r.currency = some "" then some "NA"
        else r.currency.map String.toUpper) ≠ none
  by_cases h : r.currency = none ∨ r.currency = some ""
  · simp [h]
  · rw [if_neg h]
    cases hcur : r.currency with
    | none => exact absurd (Or.inl hcur) h
    | some s => simp

theorem normTxn_category_ne_none (r : RawTxn) : (normTxn r).category ≠ none := by
  show (if r.category = none ∨ r.category = some "" then some "NA"
        else r.category.map String.toLower) ≠ none
  by_cases h : r.category = none ∨ r.category = some ""
  · simp [h]
  · rw [if_neg h]
    cases hcat : r.category with
    | none => exact absurd (Or.inl hcat) h
    | some s => simp

/-- C9: a cleaned customer table has unique customer ids with every
country in the valid Nordic set, and a cleaned transaction table has
unique transaction ids, a strictly positive amount in every row, and
currency and category never null (the NA sentinel substituted
instead). -/
theorem c9_cleaning_invariants (dfc : List RawCustomer) (dft : List RawTxn) :
    ((clean_customers dfc).map (fun r => r.customer_id)).Nodup ∧
    (∀ r ∈ clean_customers dfc, ∃ c, r.country = some c ∧ c ∈ VALID_COUNTRIES) ∧
    ((clean_transactions dft).map (fun r => r.transaction_id)).Nodup ∧
    (∀ r ∈ clean_transactions dft,
      (∃ a, r.amount = some a ∧ 0 < a) ∧ r.currency ≠ none ∧ r.category ≠ none) := by
  refine ⟨?_, ?_, ?_, ?_⟩
  · have hperm := (List.perm_insertionSort
      (fun a b => a.customer_id.getD 0 ≤ b.customer_id.getD 0)
      (dedupByKey (fun r => r.customer_id) [] ((dfc.map normCustomer).filter customerKept)))
    exact ((hperm.map (fun r => r.customer_id)).nodup_iff).mpr
      (nodup_keys_dedupByKey _ _ _)
  · intro r hr
    have hr0 : r ∈ dedupByKey (fun r => r.customer_id) []
        ((dfc.map normCustomer).filter customerKept) :=
      (List.perm_insertionSort _ _).mem_iff.mp hr
    have hrf : r ∈ (dfc.map normCustomer).filter customerKept :=
      mem_of_mem_dedupByKey _ _ _ _ hr0
    have hkept : customerKept r = true := (List.mem_filter.mp hrf).2
    unfold customerKept at hkept
    cases hcountry : r.country with
    | none => rw [hcountry] at hkept; simp at hkept
    | some c =>
      rw [hcountry] at hkept
      refine ⟨c, rfl, ?_⟩
      simp only [Bool.and_eq_true] at hkept
      simpa using hkept.2
  · have hperm := (List.perm_insertionSort
      (fun a b => a.transaction_id.getD 0 ≤ b.transaction_id.getD 0)
      (dedupByKey (fun r => r.transaction_id) [] ((dft.map normTxn).filter txnKept)))
    exact ((hperm.map (fun r => r.transaction_id)).nodup_iff).mpr
      (nodup_keys_dedupByKey _ _ _)
  · intro r hr
    have hr0 : r ∈ dedupByKey (fun r => r.transaction_id) []
        ((dft.map normTxn).filter txnKept) :=
      (List.perm_insertionSort _ _).mem_iff.mp hr
    have hrf : r ∈ (dft.map normTxn).filter txnKept :=
      mem_of_mem_dedupByKey _ _ _ _ hr0
    have hkept : txnKept r = true := (List.mem_filter.mp hrf).2
    have hmem : r ∈ dft.map normTxn := (List.mem_filter.mp hrf).1
    obtain ⟨raw, _, hraw⟩ := List.mem_map.mp hmem
    refine ⟨?_, ?_, ?_⟩
    · unfold txnKept at hkept
      cases hamt : r.amount with
      | none => rw [hamt] at hkept; simp at hkept
      | some a =>
        rw [hamt] at hkept
        refine ⟨a, rfl, ?_⟩
        simp only [Bool.and_eq_true] at hkept
        simpa using hkept.2
    · exact hraw ▸ normTxn_currency_ne_none raw
    · exact hraw ▸ normTxn_category_ne_none raw

/-! ## The RFM aggregator: helper lemmas -/

theorem getD_zero_mem {α : Type} (l : List α) (d : α) (h : l ≠ []) : l.getD 0 d ∈ l := by
  cases l with
  | nil => exact absurd rfl h
  | cons x xs => exact List.mem_cons_self x xs

theorem rfmRow_customer_id (ref : ℤ) (cid : ℤ) (g : List TxnE) :
    (rfmRow ref cid g).customer_id = cid := rfl

theorem mem_compute_rfm (transactions : List TxnE) (refD : Option ℤ) (row : FeatureRow)
    (h : row ∈ compute_rfm_features transactions refD) :
    row = rfmRow
        (refD.getD (dateOf ((pIntMax (transactions.map (fun u => u.timestamp))).getD 0)))
        row.customer_id
        (transactions.filter (fun u => u.customer_id == row.customer_id)) ∧
    row.customer_id ∈ transactions.map (fun u => u.customer_id) := by
  obtain ⟨c, hc, hrow⟩ := List.mem_map.mp h
  have hcid : row.customer_id = c := by rw [← hrow]; rfl
  constructor
  · rw [hcid, ← hrow]
  · rw [hcid]
    exact mem_of_mem_dedupByKey _ _ _ _ hc

/-! ## C3: customers with exactly one transaction -/

/-- C3: a customer with exactly one transaction gets a feature row with
zero tenure, null transaction-amount standard deviation, null interevent
mean and standard deviation, and a transaction count of 1; and
add_customer_flags raises has_single_transaction exactly on a
transaction count of 1. -/
theorem c3_single_transaction (transactions : List TxnE) (refD : Option ℤ) (c : ℤ)
    (t : TxnE) (h1 : transactions.filter (fun u => u.customer_id == c) = [t])
    (row : FeatureRow) (hrow : row ∈ compute_rfm_features transactions refD)
    (hc : row.customer_id = c) :
    row.customer_tenure_days = 0 ∧ row.std_transaction_amount = none ∧
    row.mean_interevent_days = none ∧ row.std_interevent_days = none ∧
    row.transaction_count = 1 ∧
    (∀ (features : List FeatureRow) (q : ℚ) (cd : ℤ) (fr : FlagRow),
      fr ∈ add_customer_flags features q cd →
      (fr.has_single_transaction = true ↔ fr.transaction_count = 1)) := by
  obtain ⟨hrow_eq, -⟩ := mem_compute_rfm transactions refD row hrow
  rw [hc, h1] at hrow_eq
  refine ⟨?_, ?_, ?_, ?_, ?_, ?_⟩
  · rw [hrow_eq]
    show dateOf t.timestamp - dateOf t.timestamp = 0
    exact sub_self _
  · rw [hrow_eq]
    show qSampleVar (List.filterMap id [t.amount_in_eur]) = none
    cases ht : t.amount_in_eur with
    | none => rfl
    | some a => rfl
  · rw [hrow_eq]
    rfl
  · rw [hrow_eq]
    rfl
  · rw [hrow_eq]
    rfl
  · intro features q cd fr hfr
    obtain ⟨r, -, hfr_eq⟩ := List.mem_map.mp hfr
    rw [← hfr_eq]
    show decide (r.transaction_count = 1) = true ↔ r.transaction_count = 1
    exact decide_eq_true_iff

/-- C3 witness: one customer, one transaction. -/
theorem c3_single_transaction_witness :
    ((compute_rfm_features
        [{ transaction_id := 1, customer_id := 4, amount := 5, currency := "EUR",
           timestamp := 86400, category := "food", amount_in_eur := some 5 }] none).getD 0
      featD).customer_tenure_days = 0 :=
  (c3_single_transaction
    [{ transaction_id := 1, customer_id := 4, amount := 5, currency := "EUR",
       timestamp := 86400, category := "food", amount_in_eur := some 5 }] none 4
    { transaction_id := 1, customer_id := 4, amount := 5, currency := "EUR",
      timestamp := 86400, category := "food", amount_in_eur := some 5 }
    (by decide)
    ((compute_rfm_features
        [{ transaction_id := 1, customer_id := 4, amount := 5, currency := "EUR",
           timestamp := 86400, category := "food", amount_in_eur := some 5 }] none).getD 0
      featD)
    (getD_zero_mem _ _ (by decide))
    rfl).1

/-! ## C10: the default reference date -/

theorem rfmRow_days_since (ref : ℤ) (cid : ℤ) (g : List TxnE) :
    (rfmRow ref cid g).days_since_last_transaction
      = ref - dateOf ((pIntMax (g.map (fun u => u.timestamp))).getD 0) := rfl

/-- C10: with no explicit reference date, compute_rfm_features takes the
date of the globally latest timestamp as reference, so every feature
row has a nonnegative days_since_last_transaction, and a row of a
customer owning a globally latest transaction has
days_since_last_transaction = 0. -/
theorem c10_default_reference_date (transactions : List TxnE) (hne : transactions ≠ []) :
    (∀ row ∈ compute_rfm_features transactions none,
      0 ≤ row.days_since_last_transaction) ∧
    (∀ t ∈ transactions,
      pIntMax (transactions.map (fun u => u.timestamp)) = some t.timestamp →
      ∀ row ∈ compute_rfm_features transactions none,
        row.customer_id = t.customer_id → row.days_since_last_transaction = 0) := by
  have hts : transactions.map (fun u => u.timestamp) ≠ [] := by
    intro hnil
    exact hne (List.map_eq_nil_iff.mp hnil)
  obtain ⟨M, hM⟩ := pIntMax_isSome hts
  constructor
  · intro row hrow
    obtain ⟨heq, hmem⟩ := mem_compute_rfm transactions none row hrow
    obtain ⟨u, hu, hcu⟩ := List.mem_map.mp hmem
    have hgu : u ∈ transactions.filter (fun w => w.customer_id == row.customer_id) :=
      List.mem_filter.mpr ⟨hu, by simpa using hcu⟩
    have hgne : (transactions.filter
        (fun w => w.customer_id == row.customer_id)).map (fun w => w.timestamp) ≠ [] := by
      intro hnil
      rw [List.map_eq_nil_iff] at hnil
      rw [hnil] at hgu
      simp at hgu
    obtain ⟨m, hm⟩ := pIntMax_isSome hgne
    obtain ⟨w, hw, hwts⟩ := List.mem_map.mp (pIntMax_mem _ _ hm)
    have hwtx : w ∈ transactions := (List.mem_filter.mp hw).1
    have hmM : m ≤ M :=
      hwts ▸ le_pIntMax _ _ hM w.timestamp (List.mem_map_of_mem _ hwtx)
    conv_lhs => rw [show (0 : ℤ) = 0 from rfl]
    rw [heq, rfmRow_days_since]
    simp only [Option.getD_none, hM, hm, Option.getD_some]
    exact sub_nonneg.mpr (dateOf_mono hmM)
  · intro t ht hMt row hrow hcid
    obtain ⟨heq, hmem⟩ := mem_compute_rfm transactions none row hrow
    have htg : t ∈ transactions.filter (fun w => w.customer_id == row.customer_id) :=
      List.mem_filter.mpr ⟨ht, by simpa using hcid.symm⟩
    have hgne : (transactions.filter
        (fun w => w.customer_id == row.customer_id)).map (fun w => w.timestamp) ≠ [] := by
      intro hnil
      rw [List.map_eq_nil_iff] at hnil
      rw [hnil] at htg
      simp at htg
    obtain ⟨m, hm⟩ := pIntMax_isSome hgne
    obtain ⟨w, hw, hwts⟩ := List.mem_map.mp (pIntMax_mem _ _ hm)
    have hwtx : w ∈ transactions := (List.mem_filter.mp hw).1
    have hmdown : m ≤ t.timestamp :=
      hwts ▸ le_pIntMax _ _ hMt w.timestamp (List.mem_map_of_mem _ hwtx)
    have hmup : t.timestamp ≤ m :=
      le_pIntMax _ _ hm t.timestamp (List.mem_map_of_mem _ htg)
    have hmt : m = t.timestamp := le_antisymm hmdown hmup
    rw [heq, rfmRow_days_since]
    simp only [Option.getD_none, hMt, hm, Option.getD_some, hmt]
    exact sub_self _

/-- C10 witness. -/
theorem c10_default_reference_date_witness :
    0 ≤ ((compute_rfm_features
        [{ transaction_id := 1, customer_id := 4, amount := 5, currency := "EUR",
           timestamp := 86400, category := "food", amount_in_eur := some 5 }] none).getD 0
      featD).days_since_last_transaction :=
  (c10_default_reference_date
      [{ transaction_id := 1, customer_id := 4, amount := 5, currency := "EUR",
         timestamp := 86400, category := "food", amount_in_eur := some 5 }]
      (by decide)).1
    ((compute_rfm_features
        [{ transaction_id := 1, customer_id := 4, amount := 5, currency := "EUR",
           timestamp := 86400, category := "food", amount_in_eur := some 5 }] none).getD 0
      featD)
    (getD_zero_mem _ _ (by decide))

/-! ## C4: unmapped currencies and null-skipping aggregates -/

theorem rfmRow_monetary (ref : ℤ) (cid : ℤ) (g : List TxnE) :
    (rfmRow ref cid g).total_spend
        = round2 ((g.map (fun u => u.amount_in_eur)).filterMap id).sum ∧
    (rfmRow ref cid g).avg_transaction_amount
        = (qMean ((g.map (fun u => u.amount_in_eur)).filterMap id)).map round2 ∧
    (rfmRow ref cid g).std_transaction_amount
        = qSampleVar ((g.map (fun u => u.amount_in_eur)).filterMap id) ∧
    (rfmRow ref cid g).min_transaction_amount
        = ((g.map (fun u => u.amount_in_eur)).filterMap id).min? ∧
    (rfmRow ref cid g).max_transaction_amount
        = ((g.map (fun u => u.amount_in_eur)).filterMap id).max? :=
  ⟨rfl, rfl, rfl, rfl, rfl⟩

/-- C4: a transaction whose currency has no conversion-rate entry gets a
null amount_in_eur from add_amount_in_eur (no error is raised), and the
monetary aggregates of any feature row are computed from exactly the
non-null amount_in_eur values of the customer group: nulls are excluded
from sum, mean, std, min and max (mean and variance divide by the count
of non-null values), never coerced to zero. -/
theorem c4_unmapped_currency_null (transactions : List Txn) (i : ℕ)
    (hi : i < transactions.length)
    (h : CONVERSION_RATES.lookup (transactions.getD i txnD).currency = none)
    (etxns : List TxnE) (refD : Option ℤ) (row : FeatureRow)
    (hrow : row ∈ compute_rfm_features etxns refD) :
    ((add_amount_in_eur transactions).getD i txnED).amount_in_eur = none ∧
    row.total_spend
        = round2 (((etxns.filter (fun u => u.customer_id == row.customer_id)).map
            (fun u => u.amount_in_eur)).filterMap id).sum ∧
    row.avg_transaction_amount
        = (qMean (((etxns.filter (fun u => u.customer_id == row.customer_id)).map
            (fun u => u.amount_in_eur)).filterMap id)).map round2 ∧
    row.std_transaction_amount
        = qSampleVar (((etxns.filter (fun u => u.customer_id == row.customer_id)).map
            (fun u => u.amount_in_eur)).filterMap id) ∧
    row.min_transaction_amount
        = (((etxns.filter (fun u => u.customer_id == row.customer_id)).map
            (fun u => u.amount_in_eur)).filterMap id).min? ∧
    row.max_transaction_amount
        = (((etxns.filter (fun u => u.customer_id == row.customer_id)).map
            (fun u => u.amount_in_eur)).filterMap id).max? := by
  have hout : (add_amount_in_eur transactions).getD i txnED
      = { toTxn := transactions.getD i txnD
          amount_in_eur := (CONVERSION_RATES.lookup (transactions.getD i txnD).currency).map
            (fun r => round2 ((transactions.getD i txnD).amount * r)) } :=
    getD_map_of_lt _ transactions i txnD txnED hi
  obtain ⟨heq, -⟩ := mem_compute_rfm etxns refD row hrow
  obtain ⟨m1, m2, m3, m4, m5⟩ := rfmRow_monetary
    (refD.getD (dateOf ((pIntMax (etxns.map (fun u => u.timestamp))).getD 0)))
    row.customer_id (etxns.filter (fun u => u.customer_id == row.customer_id))
  refine ⟨?_, ?_, ?_, ?_, ?_, ?_⟩
  · rw [hout]
    show (CONVERSION_RATES.lookup (transactions.getD i txnD).currency).map
      (fun r => round2 ((transactions.getD i txnD).amount * r)) = none
    rw [h]
    rfl
  · rw [heq]; exact m1
  · rw [heq]; exact m2
  · rw [heq]; exact m3
  · rw [heq]; exact m4
  · rw [heq]; exact m5

/-- C4 witness: a USD transaction has no conversion rate. -/
theorem c4_unmapped_currency_null_witness :
    ((add_amount_in_eur
        [{ transaction_id := 1, customer_id := 4, amount := 5, currency := "USD",
           timestamp := 0, category := "food" }]).getD 0 txnED).amount_in_eur = none :=
  (c4_unmapped_currency_null
    [{ transaction_id := 1, customer_id := 4, amount := 5, currency := "USD",
       timestamp := 0, category := "food" }] 0 (by decide) (by decide)
    [{ transaction_id := 2, customer_id := 9, amount := 3, currency := "EUR",
       timestamp := 0, category := "misc", amount_in_eur := none }] none
    ((compute_rfm_features
        [{ transaction_id := 2, customer_id := 9, amount := 3, currency := "EUR",
           timestamp := 0, category := "misc", amount_in_eur := none }] none).getD 0 featD)
    (getD_zero_mem _ _ (by decide))).1

/-! ## C1: the z-score churn flag on insufficient history -/

theorem flagRow_mean_ie (thr : Option ℚ) (cd : ℤ) (r : FeatureRow) :
    (flagRow thr cd r).mean_interevent_days = r.mean_interevent_days := rfl

theorem flagRow_std_ie (thr : Option ℚ) (cd : ℤ) (r : FeatureRow) :
    (flagRow thr cd r).std_interevent_days = r.std_interevent_days := rfl

theorem flagRow_total_spend (thr : Option ℚ) (cd : ℤ) (r : FeatureRow) :
    (flagRow thr cd r).total_spend = r.total_spend := rfl

theorem flagRow_high_value (thr : Option ℚ) (cd : ℤ) (r : FeatureRow) :
    (flagRow thr cd r).is_high_value
      = thr.map (fun th => decide (th ≤ r.total_spend)) := rfl

theorem flagRow_churn2_none (thr : Option ℚ) (cd : ℤ) (r : FeatureRow)
    (h : r.mean_interevent_days = none ∨ r.std_interevent_days = none) :
    (flagRow thr cd r).is_churning_2 = none := by
  cases hm : r.mean_interevent_days with
  | none =>
    show (match r.mean_interevent_days, r.std_interevent_days with
          | some m, some w =>
            some (decide (0 < (r.days_since_last_transaction : ℚ) - m ∧
                  CHURN_Z_SCORE_THRESHOLD ^ 2 * w <
                    ((r.days_since_last_transaction : ℚ) - m) ^ 2))
          | _, _ => none) = none
    rw [hm]
  | some m =>
    cases hs : r.std_interevent_days with
    | none =>
      show (match r.mean_interevent_days, r.std_interevent_days with
            | some m, some w =>
              some (decide (0 < (r.days_since_last_transaction : ℚ) - m ∧
                    CHURN_Z_SCORE_THRESHOLD ^ 2 * w <
                      ((r.days_since_last_transaction : ℚ) - m) ^ 2))
            | _, _ => none) = none
      rw [hm, hs]
    | some w =>
      rcases h with h | h
      · exact absurd (hm ▸ h) (by simp)
      · exact absurd (hs ▸ h) (by simp)

/-- C1 (amended): for a feature row whose mean_interevent_days or
std_interevent_days is null (insufficient transaction history),
add_customer_flags leaves is_churning_2 null — not false — and never
raises an error: the null mean/std propagates through the comparison
into a null flag (a downstream boolean filter then drops such rows, so
counting treats them as not churning). -/
theorem c1_churn2_null_amended (features : List FeatureRow) (q : ℚ) (cd : ℤ)
    (fr : FlagRow) (hfr : fr ∈ add_customer_flags features q cd)
    (h : fr.mean_interevent_days = none ∨ fr.std_interevent_days = none) :
    fr.is_churning_2 = none := by
  obtain ⟨r, -, hfr_eq⟩ := List.mem_map.mp hfr
  rw [← hfr_eq] at h ⊢
  rw [flagRow_mean_ie, flagRow_std_ie] at h
  exact flagRow_churn2_none _ _ _ h

/-- C1 counterexample: running the actual pipeline on a single
transaction (so the customer has null interevent mean and std), the
is_churning_2 flag of the resulting row is null and in particular is
not false — the claim that the flag is set to false and is never null
fails on the code. -/
theorem c1_churn2_null_counterexample :
    ((add_customer_flags
        (compute_rfm_features
          [{ transaction_id := 1, customer_id := 4, amount := 5, currency := "EUR",
             timestamp := 86400, category := "food", amount_in_eur := some 5 }] none)
        (80 / 100) 50).getD 0 flagD).is_churning_2 = none ∧
    ((add_customer_flags
        (compute_rfm_features
          [{ transaction_id := 1, customer_id := 4, amount := 5, currency := "EUR",
             timestamp := 86400, category := "food", amount_in_eur := some 5 }] none)
        (80 / 100) 50).getD 0 flagD).is_churning_2 ≠ some false := by
  constructor
  · rfl
  · intro hcontra
    exact Option.noConfusion ((rfl : (none : Option Bool) = _).trans hcontra)

/-- C1 witness for the amended theorem. -/
theorem c1_churn2_null_witness :
    (flagRow (pQuantileNearest (80 / 100) ([featD].map (fun r => r.total_spend))) 50
      featD).is_churning_2 = none :=
  c1_churn2_null_amended [featD] (80 / 100) 50 _ (List.mem_cons_self _ _) (Or.inl rfl)

/-! ## C2: the high-value quantile threshold -/

theorem pQuantileNearest_eq_getD (q : ℚ) (xs : List ℚ)
    (hidx : (qround (q * (((List.insertionSort (fun a b => a ≤ b) xs).length : ℚ) - 1))).toNat
      < (List.insertionSort (fun a b => a ≤ b) xs).length) :
    pQuantileNearest q xs
      = some ((List.insertionSort (fun a b => a ≤ b) xs).getD
          (qround (q * (((List.insertionSort (fun a b => a ≤ b) xs).length : ℚ) - 1))).toNat
          0) := by
  simp only [pQuantileNearest]
  rw [if_neg (by omega)]
  rw [List.getElem?_eq_getElem hidx, List.getD_eq_getElem _ _ hidx]

/-- C2 (amended): for a nonempty feature table and a percentile q in
[0, 1], add_customer_flags takes as high-value threshold the quantile
of total_spend computed with the polars default "nearest" interpolation
— the ascending-sorted value at index round(q * (n - 1)) — and flags
is_high_value true exactly when total_spend >= that threshold. -/
theorem c2_high_value_nearest_amended (features : List FeatureRow) (q : ℚ) (cd : ℤ)
    (hne : features ≠ []) (h0 : 0 ≤ q) (h1 : q ≤ 1) :
    ∃ th, pQuantileNearest q (features.map (fun r => r.total_spend)) = some th ∧
      ∀ fr ∈ add_customer_flags features q cd,
        fr.is_high_value = some (decide (th ≤ fr.total_spend)) := by
  have hslen : (List.insertionSort (fun a b => a ≤ b)
      (features.map (fun r => r.total_spend))).length = features.length := by
    rw [(List.perm_insertionSort _ _).length_eq, List.length_map]
  have hfl : 0 < features.length := List.length_pos.mpr hne
  have hn1 : 1 ≤ (List.insertionSort (fun a b => a ≤ b)
      (features.map (fun r => r.total_spend))).length := by omega
  have hnq : (1 : ℚ) ≤ ((List.insertionSort (fun a b => a ≤ b)
      (features.map (fun r => r.total_spend))).length : ℚ) := by exact_mod_cast hn1
  have hx0 : 0 ≤ q * (((List.insertionSort (fun a b => a ≤ b)
      (features.map (fun r => r.total_spend))).length : ℚ) - 1) := by
    apply mul_nonneg h0
    linarith
  have hx1 : q * (((List.insertionSort (fun a b => a ≤ b)
        (features.map (fun r => r.total_spend))).length : ℚ) - 1)
      ≤ ((List.insertionSort (fun a b => a ≤ b)
        (features.map (fun r => r.total_spend))).length : ℚ) - 1 := by
    calc q * (((List.insertionSort (fun a b => a ≤ b)
          (features.map (fun r => r.total_spend))).length : ℚ) - 1)
        ≤ 1 * (((List.insertionSort (fun a b => a ≤ b)
          (features.map (fun r => r.total_spend))).length : ℚ) - 1) :=
          mul_le_mul_of_nonneg_right h1 (by linarith)
      _ = ((List.insertionSort (fun a b => a ≤ b)
          (features.map (fun r => r.total_spend))).length : ℚ) - 1 := one_mul _
  have hql : 0 ≤ qround (q * (((List.insertionSort (fun a b => a ≤ b)
      (features.map (fun r => r.total_spend))).length : ℚ) - 1)) := by
    rw [qround, qfloor_eq_floor]
    apply Int.le_floor.mpr
    push_cast
    linarith
  have hqu : qround (q * (((List.insertionSort (fun a b => a ≤ b)
        (features.map (fun r => r.total_spend))).length : ℚ) - 1))
      ≤ ((List.insertionSort (fun a b => a ≤ b)
        (features.map (fun r => r.total_spend))).length : ℤ) - 1 := by
    rw [qround, qfloor_eq_floor]
    have hlt : ⌊q * (((List.insertionSort (fun a b => a ≤ b)
        (features.map (fun r => r.total_spend))).length : ℚ) - 1) + 1 / 2⌋
        < ((List.insertionSort (fun a b => a ≤ b)
          (features.map (fun r => r.total_spend))).length : ℤ) := by
      rw [Int.floor_lt]
      push_cast
      linarith
    omega
  have hidx : (qround (q * (((List.insertionSort (fun a b => a ≤ b)
      (features.map (fun r => r.total_spend))).length : ℚ) - 1))).toNat
      < (List.insertionSort (fun a b => a ≤ b)
        (features.map (fun r => r.total_spend))).length := by omega
  refine ⟨_, pQuantileNearest_eq_getD q _ hidx, ?_⟩
  intro fr hfr
  obtain ⟨r, -, hfr_eq⟩ := List.mem_map.mp hfr
  rw [← hfr_eq, flagRow_high_value, flagRow_total_spend,
    pQuantileNearest_eq_getD q _ hidx]
  rfl

/-- C2 witness for the amended theorem. -/
theorem c2_high_value_nearest_witness :
    ∃ th, pQuantileNearest 1 ([featSpend 10].map (fun r => r.total_spend)) = some th ∧
      ∀ fr ∈ add_customer_flags [featSpend 10] 1 50,
        fr.is_high_value = some (decide (th ≤ fr.total_spend)) :=
  c2_high_value_nearest_amended [featSpend 10] 1 50 (by decide) (by decide) (by decide)

/-- C2 counterexample: with total spends 10, 20, 30, 35, 40 and the
default 0.80 percentile, the source computes the threshold with the
polars default "nearest" interpolation — index round(0.8 * 4) = 3 of
the sorted spends, i.e. 35 — and flags the spend-35 row high-value,
although that spend lies strictly below the linear-interpolation
quantile 36 the claim prescribes; so is_high_value is not
total_spend >= quantile-with-linear-interpolation. -/
theorem c2_high_value_nearest_counterexample :
    ((add_customer_flags
        [featSpend 10, featSpend 20, featSpend 30, featSpend 35, featSpend 40]
        (80 / 100) 50).getD 3 flagD).total_spend = 35 ∧
    ((add_customer_flags
        [featSpend 10, featSpend 20, featSpend 30, featSpend 35, featSpend 40]
        (80 / 100) 50).getD 3 flagD).is_high_value = some true ∧
    quantileLinearSpec (80 / 100)
        ([featSpend 10, featSpend 20, featSpend 30, featSpend 35, featSpend 40].map
          (fun r => r.total_spend)) = some 36 ∧
    ¬ ((35 : ℚ) ≥ 36) := by
  have hs : List.insertionSort (fun a b => a ≤ b) [(10 : ℚ), 20, 30, 35, 40]
      = [(10 : ℚ), 20, 30, 35, 40] := by decide
  have hmap : [featSpend 10, featSpend 20, featSpend 30, featSpend 35,
      featSpend 40].map (fun r => r.total_spend) = [(10 : ℚ), 20, 30, 35, 40] := rfl
  have hq : qround ((80 / 100 : ℚ) * (((5 : ℕ) : ℚ) - 1)) = 3 := by
    rw [qround, qfloor]
    norm_num
    decide
  have hthr : pQuantileNearest (80 / 100) [(10 : ℚ), 20, 30, 35, 40] = some 35 := by
    simp only [pQuantileNearest, hs]
    rw [if_neg (by norm_num)]
    rw [show ([(10 : ℚ), 20, 30, 35, 40] : List ℚ).length = (5 : ℕ) from rfl, hq]
    rfl
  refine ⟨rfl, ?_, ?_, by norm_num⟩
  · have hgd : (add_customer_flags
        [featSpend 10, featSpend 20, featSpend 30, featSpend 35, featSpend 40]
        (80 / 100) 50).getD 3 flagD
        = flagRow (pQuantileNearest (80 / 100)
            ([featSpend 10, featSpend 20, featSpend 30, featSpend 35,
              featSpend 40].map (fun r => r.total_spend))) 50 (featSpend 35) := rfl
    rw [hgd, flagRow_high_value, hmap, hthr]
    decide
  · rw [hmap]
    have hfl : qfloor ((80 / 100 : ℚ) * (((5 : ℕ) : ℚ) - 1)) = 3 := by
      rw [qfloor]
      norm_num
      decide
    have hcl : qceil ((80 / 100 : ℚ) * (((5 : ℕ) : ℚ) - 1)) = 4 := by
      rw [qceil, qfloor]
      norm_num
      decide
    simp only [quantileLinearSpec, hs]
    rw [if_neg (by norm_num)]
    rw [show ([(10 : ℚ), 20, 30, 35, 40] : List ℚ).length = (5 : ℕ) from rfl, hfl, hcl]
    norm_num
    show (35 : ℚ) + 1 / 5 * ((40 : ℚ) - 35) = 36
    norm_num

end NordicPipeline
